import Mathlib

/-!
Shallow embedding of the simulation core of `project_simulator_streamlit.py`
(a Monte-Carlo project-risk simulator).

Modelling choices:
* The Python configuration is a `dict` from stage id to a record with a
  `baseline` duration and a list of risk records.  Python dicts iterate in
  insertion order, so the configuration is embedded as an association list
  `List (Nat × Stage)` kept in its supplied order.
* The global numpy random generator is embedded as an explicit stream of
  rationals (`Rng`); `np.random.random()` takes the head of the stream, and
  `np.random.randint(lo, hi)` consumes one draw `u` and returns
  `lo + ⌊u * (hi - lo)⌋`, which has the same support and determinism as the
  library sampler.  Draws of a well-formed generator lie in `[0, 1)`
  (`RngValid`).
* Durations, delays and impacts are `Nat` (the UI only produces non-negative
  integers); probabilities and draws are `ℚ`.
-/

/-- A risk definition attached to a stage, as in the `risks` entries of
`DEFAULT_STAGES`: the Python `impact` pair `(lo, hi)` is split into
`impact_min` and `impact_max`. -/
structure RiskEvent where
  type : String
  probability : ℚ
  impact_min : Nat
  impact_max : Nat
  severity : String
  mitigation : String
deriving DecidableEq

/-- One stage record of the configuration dict: `name`, `baseline` duration
in months, and the ordered list of attached risk definitions. -/
structure Stage where
  name : String
  baseline : Nat
  risks : List RiskEvent
deriving DecidableEq

/-- The configuration passed to `simulate_project`: the Python dict
`{stage_num: stage}` in its insertion order. -/
abbrev ProjectStages := List (Nat × Stage)

/-- One entry of the run's `risk_log` (and of the batch `risk_register`):
exactly the fields appended at lines 114-120 of the source. -/
structure FiredRiskEvent where
  stage : Nat
  type : String
  severity : String
  delay : Nat
  mitigation : String
deriving DecidableEq

/-- One entry of the `results` list built by `run_simulation`:
`{'delay': delay, 'duration': duration}`. -/
structure RunSummary where
  delay : Nat
  duration : Nat
deriving DecidableEq

/-- The source of randomness: the stream of values that successive calls of
the global numpy generator would return. -/
structure Rng where
  stream : Nat → ℚ

/-- The next uniform draw (`np.random.random()`). -/
def Rng.head (r : Rng) : ℚ := r.stream 0

/-- The generator state after one draw has been consumed. -/
def Rng.tail (r : Rng) : Rng := ⟨fun n => r.stream (n + 1)⟩

/-- A well-formed generator only produces values in `[0, 1)`. -/
def RngValid (r : Rng) : Prop := ∀ n, 0 ≤ r.stream n ∧ r.stream n < 1

/-- `np.random.randint(lo, hiEx)` realised from one uniform draw `u`:
`lo + ⌊u * (hiEx - lo)⌋`, a uniform integer of `[lo, hiEx)` when
`0 ≤ u < 1` and `lo < hiEx`.  The floor is computed on the draw's numerator
and denominator; `randint_eq_floor` below restates it with `⌊⌋`. -/
def randint (lo hiEx : Nat) (u : ℚ) : Nat :=
  lo + ((u.num * ((hiEx : Int) - (lo : Int))) / (u.den : Int)).toNat

/-- The inner loop of `simulate_project` (source lines 108-120): evaluate the
risks of the stage numbered `stage_num` in order, threading the stage
duration, the run's `total_delay` and the run's `risk_log`.  Each risk
consumes one draw; if the draw is `< probability` the risk fires, a second
draw samples `delay = randint(impact_min, impact_max + 1)`, both duration
accumulators grow by `delay`, and a `FiredRiskEvent` is appended. -/
def simulate_risks (stage_num : Nat) (risks : List RiskEvent)
    (stage_duration total_delay : Nat) (risk_log : List FiredRiskEvent)
    (rng : Rng) : Nat × Nat × List FiredRiskEvent × Rng :=
  match risks with
  | [] => (stage_duration, total_delay, risk_log, rng)
  | risk :: rest =>
    let u := rng.head
    let rng1 := rng.tail
    if u < risk.probability then
      let d := randint risk.impact_min (risk.impact_max + 1) rng1.head
      simulate_risks stage_num rest (stage_duration + d) (total_delay + d)
        (risk_log ++ [⟨stage_num, risk.type, risk.severity, d, risk.mitigation⟩])
        rng1.tail
    else
      simulate_risks stage_num rest stage_duration total_delay risk_log rng1

/-- The outer loop of `simulate_project` (source lines 104-122): iterate the
stages in the order of the configuration mapping, starting each stage at its
`baseline` and adding the finished `stage_duration` to
`cumulative_duration`. -/
def simulate_stages (stages : ProjectStages)
    (total_delay cumulative_duration : Nat) (risk_log : List FiredRiskEvent)
    (rng : Rng) : Nat × Nat × List FiredRiskEvent × Rng :=
  match stages with
  | [] => (total_delay, cumulative_duration, risk_log, rng)
  | (stage_num, stage) :: rest =>
    let r := simulate_risks stage_num stage.risks stage.baseline total_delay
      risk_log rng
    simulate_stages rest r.2.1 (cumulative_duration + r.1) r.2.2.1 r.2.2.2

/-- `simulate_project(stages)` (source lines 99-124): one stochastic trial,
returning `(total_delay, cumulative_duration, risk_log)` together with the
generator state left behind. -/
def simulate_project (stages : ProjectStages) (rng : Rng) :
    Nat × Nat × List FiredRiskEvent × Rng :=
  simulate_stages stages 0 0 [] rng

/-- `run_simulation(stages, num_simulations)` (source lines 126-135): run
`simulate_project` `num_simulations` times, collecting one `RunSummary` per
run in order and extending the batch `risk_register` with each run's fired
events. -/
def run_simulation (stages : ProjectStages) (num_simulations : Nat)
    (rng : Rng) : List RunSummary × List FiredRiskEvent × Rng :=
  match num_simulations with
  | 0 => ([], [], rng)
  | n + 1 =>
    let r := simulate_project stages rng
    let rest := run_simulation stages n r.2.2.2
    (⟨r.1, r.2.1⟩ :: rest.1, r.2.2.1 ++ rest.2.1, rest.2.2)

/-- Sum of the `delay` fields of a list of fired events. -/
def sumDelays (l : List FiredRiskEvent) : Nat := (l.map (fun e => e.delay)).sum

/-- Total number of risk definitions of a configuration. -/
def numRisks (stages : ProjectStages) : Nat :=
  (stages.map (fun p => p.2.risks.length)).sum

/-- Generator state after `i` complete runs of `simulate_project`. -/
def rngAfter (stages : ProjectStages) (rng : Rng) : Nat → Rng
  | 0 => rng
  | i + 1 => (simulate_project stages (rngAfter stages rng i)).2.2.2

/-- The summary that the `i`-th invocation (0-based) of the Single-Run
Simulator produces inside a batch started at `rng`. -/
def nthRunSummary (stages : ProjectStages) (rng : Rng) (i : Nat) : RunSummary :=
  let r := simulate_project stages (rngAfter stages rng i)
  ⟨r.1, r.2.1⟩

/-- The fired-event list that the `i`-th invocation (0-based) of the
Single-Run Simulator produces inside a batch started at `rng`. -/
def nthRunLog (stages : ProjectStages) (rng : Rng) (i : Nat) :
    List FiredRiskEvent :=
  (simulate_project stages (rngAfter stages rng i)).2.2.1

/-- Which sublist of a concatenation a flat index falls into: the run index
that a given position of the batch risk register originates from. -/
def ownerIndex : List (List FiredRiskEvent) → Nat → Nat
  | [], _ => 0
  | l :: ls, i => if i < l.length then 0 else ownerIndex ls (i - l.length) + 1

/-- Insert a keyed stage in front of the first entry with a not-smaller id. -/
def insertStage (p : Nat × Stage) : ProjectStages → ProjectStages
  | [] => [p]
  | q :: rest => if p.1 ≤ q.1 then p :: q :: rest else q :: insertStage p rest

/-- Insertion sort of a configuration by stage id. -/
def sortStages : ProjectStages → ProjectStages
  | [] => []
  | p :: rest => insertStage p (sortStages rest)

/-- Modelled from the spec: "stages execute in ascending id order".  The
source has no such sorting step; this is the spec's described behaviour, a
run over the configuration reordered by ascending stage id, to compare with
`simulate_project`, which iterates the mapping in its supplied order. -/
def simulate_project_ascending (stages : ProjectStages) (rng : Rng) :
    Nat × Nat × List FiredRiskEvent × Rng :=
  simulate_project (sortStages stages) rng

/-- Modelled from the spec: the `ValidationError` of §4.1/§7, "identifying
the offending field".  No such error type exists in the source; the app only
constrains values through its UI widgets. -/
structure ValidationError where
  field : String
deriving DecidableEq

/-- Modelled from the spec: raw (unvalidated) risk input as the presentation
layer would supply it — impacts may be any integers, the probability any
rational. -/
structure RawRisk where
  type : String
  probability : ℚ
  impact_min : Int
  impact_max : Int
  severity : String
  mitigation : String
deriving DecidableEq

/-- Modelled from the spec: raw (unvalidated) stage input. -/
structure RawStage where
  id : Nat
  name : String
  baseline : Int
  risks : List RawRisk
deriving DecidableEq

/-- Modelled from the spec: the §4.1 check of one risk: `0 ≤ probability ≤ 1`
and `0 ≤ impact_min ≤ impact_max`, failing with the offending field. -/
def validateRisk (r : RawRisk) : Option ValidationError :=
  if ¬ (0 ≤ r.probability ∧ r.probability ≤ 1) then some ⟨"probability"⟩
  else if ¬ (0 ≤ r.impact_min) then some ⟨"impact_min"⟩
  else if ¬ (r.impact_min ≤ r.impact_max) then some ⟨"impact_max"⟩
  else none

/-- First validation failure among a list of raw risks, if any. -/
def validateRisks : List RawRisk → Option ValidationError
  | [] => none
  | r :: rest =>
    match validateRisk r with
    | some e => some e
    | none => validateRisks rest

/-- Modelled from the spec: the §4.1 check of one stage:
`baseline_duration ≥ 1` and every attached risk valid. -/
def validateStage (s : RawStage) : Option ValidationError :=
  if ¬ (1 ≤ s.baseline) then some ⟨"baseline_duration"⟩
  else validateRisks s.risks

/-- First validation failure among a list of raw stages, if any. -/
def validateStages : List RawStage → Option ValidationError
  | [] => none
  | s :: rest =>
    match validateStage s with
    | some e => some e
    | none => validateStages rest

/-- Conversion of one already-validated raw risk to the simulator's type. -/
def buildRisk (r : RawRisk) : RiskEvent :=
  ⟨r.type, r.probability, r.impact_min.toNat, r.impact_max.toNat,
    r.severity, r.mitigation⟩

/-- Conversion of one already-validated raw stage to the simulator's type. -/
def buildStage (s : RawStage) : Nat × Stage :=
  (s.id, ⟨s.name, s.baseline.toNat, s.risks.map buildRisk⟩)

/-- Modelled from the spec: `validate_and_build(raw_stage_definitions)`
(§4.1, §6) — construct a `ProjectStages` or fail with a `ValidationError`
identifying the offending field, before any simulation trial.  Required
checks: `baseline_duration ≥ 1`; `0 ≤ probability ≤ 1`;
`0 ≤ impact_min ≤ impact_max`; stage ids unique. -/
def validate_and_build (raw : List RawStage) :
    Except ValidationError ProjectStages :=
  if ¬ (raw.map (fun s => s.id)).Nodup then Except.error ⟨"id"⟩
  else
    match validateStages raw with
    | some e => Except.error e
    | none => Except.ok (raw.map buildStage)

/-! Concrete sample data used to instantiate the theorems below. -/

/-- A generator whose every draw is `0`. -/
def rng0 : Rng := ⟨fun _ => 0⟩

/-- The same stream as `rng0`, written differently. -/
def rng0b : Rng := ⟨fun n => 0 * (n : ℚ)⟩

/-- A certain risk (probability `1`) of exactly two months of delay. -/
def riskSure2 : RiskEvent := ⟨"supply_chain", 1, 2, 2, "critical", "multiple suppliers"⟩

/-- A one-stage configuration carrying `riskSure2`. -/
def cfgPair : ProjectStages := [(1, ⟨"Procurement", 6, [riskSure2]⟩)]

/-- A stage with a certain five-month risk. -/
def stageA : Stage := ⟨"Planning", 1, [⟨"funding", 1, 5, 5, "high", "budget"⟩]⟩

/-- A stage with a certain seven-month risk. -/
def stageB : Stage := ⟨"Surveying", 1, [⟨"logistics", 1, 7, 7, "medium", "transport"⟩]⟩

/-- A configuration whose stages are supplied in descending id order. -/
def cfgUnsorted : ProjectStages := [(2, stageB), (1, stageA)]

/-- The same stages supplied in ascending id order. -/
def cfgSorted : ProjectStages := [(1, stageA), (2, stageB)]

/-- A raw input whose only risk has `impact_min = 3 > 1 = impact_max`. -/
def rawBad : List RawStage :=
  [⟨1, "Planning", 6, [⟨"funding", 1/2, 3, 1, "high", "budget"⟩]⟩]

/-! Basic facts about the generator, the sampler and the delay sums. -/

lemma RngValid.tail {r : Rng} (h : RngValid r) : RngValid r.tail :=
  fun n => h (n + 1)

lemma RngValid.head_nonneg {r : Rng} (h : RngValid r) : 0 ≤ r.head :=
  (h 0).1

lemma RngValid.head_lt_one {r : Rng} (h : RngValid r) : r.head < 1 :=
  (h 0).2

lemma rng0_valid : RngValid rng0 := by
  intro n
  constructor
  · exact le_refl 0
  · norm_num [rng0]

lemma randint_eq_floor (lo hiEx : Nat) (u : ℚ) :
    randint lo hiEx u = lo + (⌊u * ((hiEx : ℚ) - (lo : ℚ))⌋).toNat := by
  have h : u * ((hiEx : ℚ) - (lo : ℚ))
      = ((u.num * ((hiEx : Int) - (lo : Int)) : Int) : ℚ)
        / ((u.den : Nat) : ℚ) := by
    conv_lhs => rw [← Rat.num_div_den u]
    push_cast
    ring
  unfold randint
  rw [h, Rat.floor_intCast_div_natCast]

lemma randint_le (lo hiEx : Nat) (u : ℚ) : lo ≤ randint lo hiEx u := by
  unfold randint
  exact Nat.le_add_right lo _

lemma le_randint {lo hi : Nat} {u : ℚ} (h1 : u < 1)
    (hlh : lo ≤ hi) : randint lo (hi + 1) u ≤ hi := by
  rw [randint_eq_floor]
  have hpos : (0 : ℚ) < ((hi + 1 : Nat) : ℚ) - (lo : ℚ) := by
    have hcast : (lo : ℚ) ≤ (hi : ℚ) := by exact_mod_cast hlh
    push_cast
    linarith
  have hx : u * (((hi + 1 : Nat) : ℚ) - (lo : ℚ))
      < ((hi + 1 : Nat) : ℚ) - (lo : ℚ) := by
    calc u * (((hi + 1 : Nat) : ℚ) - (lo : ℚ))
        < 1 * (((hi + 1 : Nat) : ℚ) - (lo : ℚ)) :=
          mul_lt_mul_of_pos_right h1 hpos
      _ = ((hi + 1 : Nat) : ℚ) - (lo : ℚ) := one_mul _
  have hfl : ⌊u * (((hi + 1 : Nat) : ℚ) - (lo : ℚ))⌋ < (hi : ℤ) + 1 - lo := by
    rw [Int.floor_lt]
    push_cast
    push_cast at hx
    linarith
  omega

lemma randint_self {k : Nat} {u : ℚ} (h1 : u < 1) :
    randint k (k + 1) u = k := by
  have hle := randint_le k (k + 1) u
  have hge : randint k (k + 1) u ≤ k := le_randint h1 (le_refl k)
  omega

lemma sumDelays_nil : sumDelays [] = 0 := rfl

lemma sumDelays_cons (e : FiredRiskEvent) (l : List FiredRiskEvent) :
    sumDelays (e :: l) = e.delay + sumDelays l := rfl

lemma sumDelays_append (l₁ l₂ : List FiredRiskEvent) :
    sumDelays (l₁ ++ l₂) = sumDelays l₁ + sumDelays l₂ := by
  simp [sumDelays]

/-! The shape of one stage's risk loop: it only ever appends to the log, the
stage duration and the run delay grow by the same amount — the sum of the
delays of the newly fired events — every new event is tagged with the
processed stage's id, at most one event appears per risk definition, and a
valid generator stays valid. -/

lemma simulate_risks_spec (stage_num : Nat) :
    ∀ (risks : List RiskEvent) (sd td : Nat) (log : List FiredRiskEvent)
      (rng : Rng),
    ∃ (new : List FiredRiskEvent) (rng' : Rng),
      simulate_risks stage_num risks sd td log rng
        = (sd + sumDelays new, td + sumDelays new, log ++ new, rng') ∧
      (∀ e ∈ new, e.stage = stage_num) ∧
      new.length ≤ risks.length ∧
      (RngValid rng → RngValid rng') := by
  intro risks
  induction risks with
  | nil =>
    intro sd td log rng
    exact ⟨[], rng, by simp [simulate_risks, sumDelays_nil], by simp,
      by simp, fun h => h⟩
  | cons risk rest ih =>
    intro sd td log rng
    by_cases hfire : rng.head < risk.probability
    · set d := randint risk.impact_min (risk.impact_max + 1) rng.tail.head with hd
      obtain ⟨new', rng', heq, htag, hlen, hval⟩ :=
        ih (sd + d) (td + d)
          (log ++ [⟨stage_num, risk.type, risk.severity, d, risk.mitigation⟩])
          rng.tail.tail
      refine ⟨⟨stage_num, risk.type, risk.severity, d, risk.mitigation⟩ :: new',
        rng', ?_, ?_, ?_, ?_⟩
      · rw [simulate_risks, if_pos hfire, ← hd, heq]
        rw [sumDelays_cons]
        simp [List.append_assoc, Nat.add_assoc]
      · intro e he
        rcases List.mem_cons.mp he with h | h
        · rw [h]
        · exact htag e h
      · simpa using Nat.succ_le_succ hlen
      · intro hv
        exact hval (hv.tail.tail)
    · obtain ⟨new', rng', heq, htag, hlen, hval⟩ := ih sd td log rng.tail
      refine ⟨new', rng', ?_, htag, ?_, ?_⟩
      · rw [simulate_risks, if_neg hfire, heq]
      · exact Nat.le_succ_of_le hlen
      · intro hv
        exact hval hv.tail

/-! The shape of the stage loop: the run log is the concatenation of one
block of fired events per stage, in stage order; `total_delay` grows by the
sum of all fired delays, `cumulative_duration` by each stage's baseline plus
that stage's fired delays. -/

lemma simulate_stages_spec :
    ∀ (stages : ProjectStages) (td cd : Nat) (log : List FiredRiskEvent)
      (rng : Rng),
    ∃ (news : List (List FiredRiskEvent)) (rng' : Rng),
      List.Forall₂ (fun (p : Nat × Stage) (l : List FiredRiskEvent) =>
          (∀ e ∈ l, e.stage = p.1) ∧ l.length ≤ p.2.risks.length) stages news ∧
      simulate_stages stages td cd log rng
        = (td + sumDelays news.flatten,
           cd + (List.zipWith
              (fun (p : Nat × Stage) (l : List FiredRiskEvent) =>
                p.2.baseline + sumDelays l) stages news).sum,
           log ++ news.flatten, rng') ∧
      (RngValid rng → RngValid rng') := by
  intro stages
  induction stages with
  | nil =>
    intro td cd log rng
    exact ⟨[], rng, List.Forall₂.nil,
      by simp [simulate_stages, sumDelays_nil], fun h => h⟩
  | cons p rest ih =>
    intro td cd log rng
    obtain ⟨k, s⟩ := p
    obtain ⟨l0, rng1, heq0, htag0, hlen0, hval0⟩ :=
      simulate_risks_spec k s.risks s.baseline td log rng
    obtain ⟨news', rng', hfa, heq, hval⟩ :=
      ih (td + sumDelays l0) (cd + (s.baseline + sumDelays l0)) (log ++ l0) rng1
    refine ⟨l0 :: news', rng', List.Forall₂.cons ⟨htag0, hlen0⟩ hfa, ?_,
      fun hv => hval (hval0 hv)⟩
    show simulate_stages ((k, s) :: rest) td cd log rng = _
    rw [simulate_stages]
    rw [heq0]
    rw [heq]
    simp [sumDelays_append, List.append_assoc, Nat.add_assoc]

/-! Locating events by their stage tag. -/

lemma tags_flatten {stages : ProjectStages} {news : List (List FiredRiskEvent)}
    (hfa : List.Forall₂ (fun (p : Nat × Stage) (l : List FiredRiskEvent) =>
      (∀ e ∈ l, e.stage = p.1) ∧ l.length ≤ p.2.risks.length) stages news) :
    ∀ e ∈ news.flatten, e.stage ∈ stages.map Prod.fst := by
  induction hfa with
  | nil => simp
  | cons hpl htail ih =>
    intro e he
    rw [List.flatten_cons] at he
    rw [List.map_cons]
    rcases List.mem_append.mp he with h | h
    · rw [hpl.1 e h]
      exact List.mem_cons_self _ _
    · exact List.mem_cons_of_mem _ (ih e h)

lemma filter_stage_eq_nil {k : Nat} {l : List FiredRiskEvent}
    (h : ∀ e ∈ l, e.stage ≠ k) : l.filter (fun e => e.stage = k) = [] := by
  apply List.filter_eq_nil_iff.mpr
  intro e he
  simpa using h e he

lemma filter_stage_eq_self {k : Nat} {l : List FiredRiskEvent}
    (h : ∀ e ∈ l, e.stage = k) : l.filter (fun e => e.stage = k) = l := by
  apply List.filter_eq_self.mpr
  intro e he
  simpa using h e he

/-! With distinct stage ids, filtering the whole run log by a stage's id
recovers exactly that stage's block of fired events. -/

lemma zipWith_eq_map_filter :
    ∀ (stages : ProjectStages) (news : List (List FiredRiskEvent)),
      List.Forall₂ (fun (p : Nat × Stage) (l : List FiredRiskEvent) =>
        (∀ e ∈ l, e.stage = p.1) ∧ l.length ≤ p.2.risks.length) stages news →
      (stages.map Prod.fst).Nodup →
      List.zipWith (fun (p : Nat × Stage) (l : List FiredRiskEvent) =>
          p.2.baseline + sumDelays l) stages news
        = stages.map (fun p => p.2.baseline
            + sumDelays (news.flatten.filter (fun e => e.stage = p.1))) := by
  intro stages news hfa
  induction hfa with
  | nil => intro _; rfl
  | @cons p l rest news' hpl htail ih =>
    intro hnodup
    rw [List.map_cons, List.nodup_cons] at hnodup
    obtain ⟨hnotmem, hnodup'⟩ := hnodup
    rw [List.zipWith_cons_cons, List.map_cons, ih hnodup']
    have htailtags := tags_flatten htail
    congr 1
    · have h1 : (l :: news').flatten.filter (fun e => e.stage = p.1) = l := by
        rw [List.flatten_cons, List.filter_append, filter_stage_eq_self hpl.1,
          filter_stage_eq_nil]
        · simp
        · intro e he hk
          exact hnotmem (hk ▸ htailtags e he)
      rw [h1]
    · apply List.map_congr_left
      intro q hq
      have hne : p.1 ≠ q.1 := by
        intro hc
        exact hnotmem (hc ▸ List.mem_map_of_mem Prod.fst hq)
      have h2 : l.filter (fun e => e.stage = q.1) = [] := by
        apply filter_stage_eq_nil
        intro e he
        rw [hpl.1 e he]
        exact hne
      rw [List.flatten_cons, List.filter_append, h2, List.nil_append]

/-! A stage that has no risk definitions contributes no events: filtering
the run log by its id gives the empty list. -/

lemma filter_flatten_no_risks :
    ∀ (stages : ProjectStages) (news : List (List FiredRiskEvent)),
      List.Forall₂ (fun (p : Nat × Stage) (l : List FiredRiskEvent) =>
        (∀ e ∈ l, e.stage = p.1) ∧ l.length ≤ p.2.risks.length) stages news →
      (stages.map Prod.fst).Nodup →
      ∀ p ∈ stages, p.2.risks = [] →
        news.flatten.filter (fun e => e.stage = p.1) = [] := by
  intro stages news hfa
  induction hfa with
  | nil => intro _ p hp; exact absurd hp (List.not_mem_nil p)
  | @cons q l rest news' hpl htail ih =>
    intro hnodup p hp hrisks
    rw [List.map_cons, List.nodup_cons] at hnodup
    obtain ⟨hnotmem, hnodup'⟩ := hnodup
    have htailtags := tags_flatten htail
    rcases List.mem_cons.mp hp with h | h
    · subst h
      have hl : l = [] := by
        have := hpl.2
        rw [hrisks] at this
        exact List.length_eq_zero.mp (Nat.le_zero.mp this)
      rw [List.flatten_cons, hl, List.nil_append]
      apply filter_stage_eq_nil
      intro e he hk
      exact hnotmem (hk ▸ htailtags e he)
    · have hne : ∀ e ∈ l, e.stage ≠ p.1 := by
        intro e he
        rw [hpl.1 e he]
        intro hc
        exact hnotmem (hc ▸ List.mem_map_of_mem Prod.fst h)
      rw [List.flatten_cons, List.filter_append, filter_stage_eq_nil hne,
        List.nil_append]
      exact ih hnodup' p h hrisks

/-! Sorting by stage id fixes an already-ascending configuration. -/

lemma sortStages_of_sorted :
    ∀ (stages : ProjectStages),
      List.Chain' (fun p q : Nat × Stage => p.1 ≤ q.1) stages →
      sortStages stages = stages := by
  intro stages
  induction stages with
  | nil => intro _; rfl
  | cons p rest ih =>
    intro hc
    rw [sortStages, ih hc.tail]
    cases rest with
    | nil => rfl
    | cons q rest' =>
      have hpq : p.1 ≤ q.1 := (List.chain'_cons.mp hc).1
      rw [insertStage, if_pos hpq]

/-! The batch runner laid out run by run: the `i`-th summary and the `i`-th
block of the register both come from the `i`-th sequential invocation of the
Single-Run Simulator. -/

lemma rngAfter_shift (stages : ProjectStages) (rng : Rng) :
    ∀ i, rngAfter stages ((simulate_project stages rng).2.2.2) i
      = rngAfter stages rng (i + 1) := by
  intro i
  induction i with
  | zero => rfl
  | succ i ih =>
    show (simulate_project stages
      (rngAfter stages ((simulate_project stages rng).2.2.2) i)).2.2.2 = _
    rw [ih]
    rfl

lemma run_simulation_results (stages : ProjectStages) :
    ∀ (n : Nat) (rng : Rng),
      (run_simulation stages n rng).1
        = (List.range n).map (nthRunSummary stages rng) := by
  intro n
  induction n with
  | zero => intro rng; rfl
  | succ n ih =>
    intro rng
    rw [run_simulation]
    rw [ih ((simulate_project stages rng).2.2.2)]
    rw [List.range_succ_eq_map, List.map_cons, List.map_map]
    dsimp only
    congr 1
    apply List.map_congr_left
    intro i _
    show nthRunSummary stages ((simulate_project stages rng).2.2.2) i
      = nthRunSummary stages rng (i + 1)
    unfold nthRunSummary
    rw [rngAfter_shift]

lemma run_simulation_register (stages : ProjectStages) :
    ∀ (n : Nat) (rng : Rng),
      (run_simulation stages n rng).2.1
        = ((List.range n).map (nthRunLog stages rng)).flatten := by
  intro n
  induction n with
  | zero => intro rng; rfl
  | succ n ih =>
    intro rng
    rw [run_simulation]
    rw [ih ((simulate_project stages rng).2.2.2)]
    rw [List.range_succ_eq_map, List.map_cons, List.map_map,
      List.flatten_cons]
    dsimp only
    congr 1
    apply congrArg
    apply List.map_congr_left
    intro i _
    show nthRunLog stages ((simulate_project stages rng).2.2.2) i
      = nthRunLog stages rng (i + 1)
    unfold nthRunLog
    rw [rngAfter_shift]

lemma simulate_project_tags (stages : ProjectStages) (rng : Rng) :
    ∀ e ∈ (simulate_project stages rng).2.2.1,
      e.stage ∈ stages.map Prod.fst := by
  obtain ⟨news, rng', hfa, heq, _⟩ := simulate_stages_spec stages 0 0 [] rng
  intro e he
  have hlog : (simulate_project stages rng).2.2.1 = news.flatten := by
    rw [simulate_project, heq]
    simp
  rw [hlog] at he
  exact tags_flatten hfa e he

/-! Degenerate configurations: probability-zero risks never fire,
probability-one risks with a point impact range always fire with that exact
delay. -/

lemma numRisks_cons (k : Nat) (s : Stage) (rest : ProjectStages) :
    numRisks ((k, s) :: rest) = s.risks.length + numRisks rest := by
  simp [numRisks]

lemma simulate_risks_zero (stage_num : Nat) :
    ∀ (risks : List RiskEvent) (sd td : Nat) (log : List FiredRiskEvent)
      (rng : Rng),
      (∀ r ∈ risks, r.probability = 0) → RngValid rng →
      ∃ rng', simulate_risks stage_num risks sd td log rng = (sd, td, log, rng')
        ∧ RngValid rng' := by
  intro risks
  induction risks with
  | nil => intro sd td log rng _ hv; exact ⟨rng, rfl, hv⟩
  | cons risk rest ih =>
    intro sd td log rng hzero hv
    have hp : risk.probability = 0 := hzero risk (List.mem_cons_self _ _)
    have hnofire : ¬ rng.head < risk.probability := by
      rw [hp]
      exact not_lt.mpr hv.head_nonneg
    rw [simulate_risks, if_neg hnofire]
    exact ih sd td log rng.tail (fun r hr => hzero r (List.mem_cons_of_mem _ hr))
      hv.tail

lemma simulate_stages_zero :
    ∀ (stages : ProjectStages) (td cd : Nat) (log : List FiredRiskEvent)
      (rng : Rng),
      (∀ p ∈ stages, ∀ r ∈ p.2.risks, r.probability = 0) → RngValid rng →
      ∃ cd' rng', simulate_stages stages td cd log rng = (td, cd', log, rng')
        ∧ RngValid rng' := by
  intro stages
  induction stages with
  | nil => intro td cd log rng _ hv; exact ⟨cd, rng, rfl, hv⟩
  | cons p rest ih =>
    intro td cd log rng hzero hv
    obtain ⟨k, s⟩ := p
    obtain ⟨rng1, heq0, hv1⟩ := simulate_risks_zero k s.risks s.baseline td log
      rng (hzero (k, s) (List.mem_cons_self _ _)) hv
    rw [simulate_stages, heq0]
    exact ih td (cd + s.baseline) log rng1
      (fun q hq => hzero q (List.mem_cons_of_mem _ hq)) hv1

lemma simulate_risks_one (stage_num k : Nat) :
    ∀ (risks : List RiskEvent) (sd td : Nat) (log : List FiredRiskEvent)
      (rng : Rng),
      (∀ r ∈ risks, r.probability = 1 ∧ r.impact_min = k ∧ r.impact_max = k) →
      RngValid rng →
      ∃ log' rng',
        simulate_risks stage_num risks sd td log rng
          = (sd + k * risks.length, td + k * risks.length, log ++ log', rng')
        ∧ RngValid rng' := by
  intro risks
  induction risks with
  | nil => intro sd td log rng _ hv; exact ⟨[], rng, by simp [simulate_risks], hv⟩
  | cons risk rest ih =>
    intro sd td log rng hone hv
    obtain ⟨hp, hmin, hmax⟩ := hone risk (List.mem_cons_self _ _)
    have hfire : rng.head < risk.probability := by
      rw [hp]
      exact hv.head_lt_one
    rw [simulate_risks, if_pos hfire]
    have hd : randint risk.impact_min (risk.impact_max + 1) rng.tail.head = k := by
      rw [hmin, hmax]
      exact randint_self hv.tail.head_lt_one
    rw [hd]
    obtain ⟨log'', rng', heq, hv'⟩ := ih (sd + k) (td + k)
      (log ++ [⟨stage_num, risk.type, risk.severity, k, risk.mitigation⟩])
      rng.tail.tail
      (fun r hr => hone r (List.mem_cons_of_mem _ hr)) hv.tail.tail
    refine ⟨⟨stage_num, risk.type, risk.severity, k, risk.mitigation⟩ :: log'',
      rng', ?_, hv'⟩
    rw [heq]
    have harith : ∀ m : Nat, m + k + k * rest.length = m + k * (rest.length + 1) := by
      intro m
      rw [Nat.mul_succ]
      omega
    rw [List.length_cons, harith sd, harith td]
    simp [List.append_assoc]

lemma simulate_stages_one (k : Nat) :
    ∀ (stages : ProjectStages) (td cd : Nat) (log : List FiredRiskEvent)
      (rng : Rng),
      (∀ p ∈ stages, ∀ r ∈ p.2.risks,
        r.probability = 1 ∧ r.impact_min = k ∧ r.impact_max = k) →
      RngValid rng →
      ∃ cd' log' rng',
        simulate_stages stages td cd log rng
          = (td + k * numRisks stages, cd', log ++ log', rng')
        ∧ RngValid rng' := by
  intro stages
  induction stages with
  | nil =>
    intro td cd log rng _ hv
    exact ⟨cd, [], rng, by simp [simulate_stages, numRisks], hv⟩
  | cons p rest ih =>
    intro td cd log rng hone hv
    obtain ⟨kk, s⟩ := p
    obtain ⟨l0, rng1, heq0, hv1⟩ := simulate_risks_one kk k s.risks s.baseline
      td log rng (hone (kk, s) (List.mem_cons_self _ _)) hv
    rw [simulate_stages, heq0]
    obtain ⟨cd', l', rng', heq, hv'⟩ := ih (td + k * s.risks.length)
      (cd + (s.baseline + k * s.risks.length)) (log ++ l0) rng1
      (fun q hq => hone q (List.mem_cons_of_mem _ hq)) hv1
    refine ⟨cd', l0 ++ l', rng', ?_, hv'⟩
    rw [heq]
    rw [numRisks_cons, Nat.mul_add]
    have : td + k * s.risks.length + k * numRisks rest
        = td + (k * s.risks.length + k * numRisks rest) := by omega
    rw [this]
    simp [List.append_assoc]

lemma run_simulation_zero_case (stages : ProjectStages)
    (hzero : ∀ p ∈ stages, ∀ r ∈ p.2.risks, r.probability = 0) :
    ∀ (n : Nat) (rng : Rng), RngValid rng →
      (run_simulation stages n rng).2.1 = []
        ∧ ∀ s ∈ (run_simulation stages n rng).1, s.delay = 0 := by
  intro n
  induction n with
  | zero => intro rng _; exact ⟨rfl, by intro s hs; exact absurd hs (List.not_mem_nil s)⟩
  | succ n ih =>
    intro rng hv
    obtain ⟨cd', rng1, heq, hv1⟩ := simulate_stages_zero stages 0 0 [] rng hzero hv
    have hsim : simulate_project stages rng = (0, cd', [], rng1) := by
      rw [simulate_project, heq]
    obtain ⟨ihreg, ihres⟩ := ih rng1 hv1
    rw [run_simulation, hsim]
    dsimp only
    constructor
    · rw [List.nil_append]
      exact ihreg
    · intro s hs
      rcases List.mem_cons.mp hs with h | h
      · rw [h]
      · exact ihres s h

lemma run_simulation_one_case (stages : ProjectStages) (k : Nat)
    (hone : ∀ p ∈ stages, ∀ r ∈ p.2.risks,
      r.probability = 1 ∧ r.impact_min = k ∧ r.impact_max = k) :
    ∀ (n : Nat) (rng : Rng), RngValid rng →
      ∀ s ∈ (run_simulation stages n rng).1, s.delay = k * numRisks stages := by
  intro n
  induction n with
  | zero => intro rng _ s hs; exact absurd hs (List.not_mem_nil s)
  | succ n ih =>
    intro rng hv
    obtain ⟨cd', l', rng1, heq, hv1⟩ :=
      simulate_stages_one k stages 0 0 [] rng hone hv
    have hsim : simulate_project stages rng
        = (k * numRisks stages, cd', l', rng1) := by
      rw [simulate_project, heq]
      simp
    intro s hs
    rw [run_simulation, hsim] at hs
    dsimp only at hs
    rcases List.mem_cons.mp hs with h | h
    · rw [h]
    · exact ih rng1 hv1 s h

/-! Validation (spec-modelled): a raw input holding a risk whose
`impact_min` exceeds its `impact_max` never passes `validate_and_build`. -/

lemma validateRisk_none_le {r : RawRisk} (h : validateRisk r = none) :
    r.impact_min ≤ r.impact_max := by
  unfold validateRisk at h
  by_cases h1 : ¬ (0 ≤ r.probability ∧ r.probability ≤ 1)
  · rw [if_pos h1] at h
    exact Option.noConfusion h
  rw [if_neg h1] at h
  by_cases h2 : ¬ (0 ≤ r.impact_min)
  · rw [if_pos h2] at h
    exact Option.noConfusion h
  rw [if_neg h2] at h
  by_cases h3 : ¬ (r.impact_min ≤ r.impact_max)
  · rw [if_pos h3] at h
    exact Option.noConfusion h
  · push_neg at h3
    exact h3

lemma validateRisks_some {risks : List RawRisk}
    (h : ∃ r ∈ risks, r.impact_max < r.impact_min) :
    ∃ e, validateRisks risks = some e := by
  induction risks with
  | nil =>
    obtain ⟨r, hr, _⟩ := h
    exact absurd hr (List.not_mem_nil r)
  | cons r rest ih =>
    cases hvr : validateRisk r with
    | some e => exact ⟨e, by simp [validateRisks, hvr]⟩
    | none =>
      obtain ⟨r', hr', hbad⟩ := h
      rcases List.mem_cons.mp hr' with h' | h'
      · subst h'
        have := validateRisk_none_le hvr
        omega
      · obtain ⟨e, he⟩ := ih ⟨r', h', hbad⟩
        exact ⟨e, by simp [validateRisks, hvr, he]⟩

lemma validateStage_some {s : RawStage}
    (h : ∃ r ∈ s.risks, r.impact_max < r.impact_min) :
    ∃ e, validateStage s = some e := by
  unfold validateStage
  by_cases hb : ¬ (1 ≤ s.baseline)
  · rw [if_pos hb]
    exact ⟨⟨"baseline_duration"⟩, rfl⟩
  · rw [if_neg hb]
    exact validateRisks_some h

lemma validateRisks_none_valid {risks : List RawRisk}
    (h : validateRisks risks = none) :
    ∀ r ∈ risks, r.impact_min ≤ r.impact_max := by
  induction risks with
  | nil => intro r hr; exact absurd hr (List.not_mem_nil r)
  | cons r rest ih =>
    intro r' hr'
    cases hvr : validateRisk r with
    | some e => simp [validateRisks, hvr] at h
    | none =>
      have hrest : validateRisks rest = none := by
        simpa [validateRisks, hvr] using h
      rcases List.mem_cons.mp hr' with h' | h'
      · subst h'
        exact validateRisk_none_le hvr
      · exact ih hrest r' h'

lemma validateStage_none_valid {s : RawStage} (h : validateStage s = none) :
    ∀ r ∈ s.risks, r.impact_min ≤ r.impact_max := by
  unfold validateStage at h
  by_cases hb : ¬ (1 ≤ s.baseline)
  · rw [if_pos hb] at h
    exact Option.noConfusion h
  · rw [if_neg hb] at h
    exact validateRisks_none_valid h

lemma validateStages_some {raw : List RawStage}
    (h : ∃ s ∈ raw, ∃ r ∈ s.risks, r.impact_max < r.impact_min) :
    ∃ e, validateStages raw = some e := by
  induction raw with
  | nil =>
    obtain ⟨s, hs, _⟩ := h
    exact absurd hs (List.not_mem_nil s)
  | cons s rest ih =>
    cases hvs : validateStage s with
    | some e => exact ⟨e, by simp [validateStages, hvs]⟩
    | none =>
      obtain ⟨s', hs', r', hr', hbad⟩ := h
      rcases List.mem_cons.mp hs' with h' | h'
      · subst h'
        have := validateStage_none_valid hvs r' hr'
        omega
      · obtain ⟨e, he⟩ := ih ⟨s', h', r', hr', hbad⟩
        exact ⟨e, by simp [validateStages, hvs, he]⟩

/-! Size of the run log and batch register. -/

lemma flatten_length_le {stages : ProjectStages}
    {news : List (List FiredRiskEvent)}
    (hfa : List.Forall₂ (fun (p : Nat × Stage) (l : List FiredRiskEvent) =>
      (∀ e ∈ l, e.stage = p.1) ∧ l.length ≤ p.2.risks.length) stages news) :
    news.flatten.length ≤ numRisks stages := by
  induction hfa with
  | nil => simp [numRisks]
  | @cons p l rest news' hpl htail ih =>
    rw [List.flatten_cons, List.length_append]
    obtain ⟨k, s⟩ := p
    rw [numRisks_cons]
    exact Nat.add_le_add hpl.2 ih

lemma simulate_project_log_le (stages : ProjectStages) (rng : Rng) :
    (simulate_project stages rng).2.2.1.length ≤ numRisks stages := by
  obtain ⟨news, rng', hfa, heq, _⟩ := simulate_stages_spec stages 0 0 [] rng
  have hlog : (simulate_project stages rng).2.2.1 = news.flatten := by
    rw [simulate_project, heq]
    simp
  rw [hlog]
  exact flatten_length_le hfa

lemma run_simulation_register_le (stages : ProjectStages) :
    ∀ (n : Nat) (rng : Rng),
      (run_simulation stages n rng).2.1.length ≤ n * numRisks stages := by
  intro n
  induction n with
  | zero => intro rng; simp [run_simulation]
  | succ n ih =>
    intro rng
    rw [run_simulation]
    dsimp only
    rw [List.length_append]
    have h1 := simulate_project_log_le stages rng
    have h2 := ih ((simulate_project stages rng).2.2.2)
    calc (simulate_project stages rng).2.2.1.length
          + (run_simulation stages n (simulate_project stages rng).2.2.2).2.1.length
        ≤ numRisks stages + n * numRisks stages := Nat.add_le_add h1 h2
      _ = (n + 1) * numRisks stages := by rw [Nat.succ_mul]; omega

/-- C1: for every configuration (with distinct stage ids, as a Python dict
guarantees) and every run of the Single-Run Simulator, the returned
`total_duration` equals the sum over all stages of that stage's
`baseline_duration` plus the delays of the risks that fired in that stage,
the returned `total_delay` equals the sum of the `delay` fields of all fired
events of the run, and a stage with zero risk definitions contributes
exactly its `baseline_duration` and no events. -/
theorem claim_C1_run_totals (stages : ProjectStages) (rng : Rng)
    (hkeys : (stages.map Prod.fst).Nodup) :
    (simulate_project stages rng).1
      = sumDelays (simulate_project stages rng).2.2.1 ∧
    (simulate_project stages rng).2.1
      = (stages.map (fun p => p.2.baseline
          + sumDelays ((simulate_project stages rng).2.2.1.filter
              (fun e => e.stage = p.1)))).sum ∧
    ∀ p ∈ stages, p.2.risks = [] →
      (simulate_project stages rng).2.2.1.filter (fun e => e.stage = p.1)
        = [] := by
  obtain ⟨news, rng', hfa, heq, _⟩ := simulate_stages_spec stages 0 0 [] rng
  have hsim : simulate_project stages rng
      = (sumDelays news.flatten,
         (List.zipWith (fun (p : Nat × Stage) (l : List FiredRiskEvent) =>
           p.2.baseline + sumDelays l) stages news).sum,
         news.flatten, rng') := by
    rw [simulate_project, heq]
    simp
  rw [hsim]
  dsimp only
  refine ⟨rfl, ?_, ?_⟩
  · rw [zipWith_eq_map_filter stages news hfa hkeys]
  · intro p hp hrisks
    exact filter_flatten_no_risks stages news hfa hkeys p hp hrisks

/-- Witness for C1 at a concrete one-stage configuration. -/
theorem claim_C1_run_totals_witness :
    (cfgPair.map Prod.fst).Nodup ∧
    ((simulate_project cfgPair rng0).1
        = sumDelays (simulate_project cfgPair rng0).2.2.1 ∧
     (simulate_project cfgPair rng0).2.1
        = (cfgPair.map (fun p => p.2.baseline
            + sumDelays ((simulate_project cfgPair rng0).2.2.1.filter
                (fun e => e.stage = p.1)))).sum ∧
     ∀ p ∈ cfgPair, p.2.risks = [] →
       (simulate_project cfgPair rng0).2.2.1.filter (fun e => e.stage = p.1)
         = []) :=
  ⟨by decide, claim_C1_run_totals cfgPair rng0 (by decide)⟩

/-- C2: for every configuration and `trial_count ≥ 1` the Batch Runner's
summary collection has length exactly `trial_count`, and its `i`-th entry is
the summary produced by the `i`-th sequential invocation of the Single-Run
Simulator (the invocations being chained through the generator state). -/
theorem claim_C2_batch_length_order (stages : ProjectStages) (n : Nat)
    (rng : Rng) (hn : 1 ≤ n) :
    (run_simulation stages n rng).1.length = n ∧
    ∀ i, i < n →
      (run_simulation stages n rng).1[i]?
        = some (nthRunSummary stages rng i) := by
  constructor
  · rw [run_simulation_results]
    simp
  · intro i hi
    rw [run_simulation_results]
    rw [List.getElem?_map, List.getElem?_range hi]
    rfl

/-- Witness for C2: a two-trial batch on a concrete configuration. -/
theorem claim_C2_batch_length_order_witness :
    1 ≤ 2 ∧
    ((run_simulation cfgPair 2 rng0).1.length = 2 ∧
     ∀ i, i < 2 →
       (run_simulation cfgPair 2 rng0).1[i]?
         = some (nthRunSummary cfgPair rng0 i)) :=
  ⟨by decide, claim_C2_batch_length_order cfgPair 2 rng0 (by decide)⟩

/-- C3 (amended): the risk register returned by the Batch Runner is the
concatenation, in run order, of the fired-event lists of the individual
runs, and every record carries the id of the stage it came from among the
supplied stage ids; records carry no run identifier, so the run of origin is
not reconstructible from a record (see the counterexample). -/
theorem claim_C3_register_concat_stage_tags (stages : ProjectStages)
    (n : Nat) (rng : Rng) :
    (run_simulation stages n rng).2.1
      = ((List.range n).map (nthRunLog stages rng)).flatten ∧
    ∀ e ∈ (run_simulation stages n rng).2.1,
      e.stage ∈ stages.map Prod.fst := by
  refine ⟨run_simulation_register stages n rng, ?_⟩
  intro e he
  rw [run_simulation_register] at he
  obtain ⟨l, hl, hel⟩ := List.mem_flatten.mp he
  obtain ⟨i, _, rfl⟩ := List.mem_map.mp hl
  exact simulate_project_tags stages (rngAfter stages rng i) e hel

/-- C3 counterexample: in a concrete two-run batch the two register records
are equal as records although they originate from different runs, so no
function of a record can recover its run index — the register is not tagged
with enough context to reconstruct which run an entry came from. -/
theorem claim_C3_counterexample :
    ¬ ∃ f : FiredRiskEvent → Nat,
      ∀ i (h : i < (run_simulation cfgPair 2 rng0).2.1.length),
        f ((run_simulation cfgPair 2 rng0).2.1.get ⟨i, h⟩)
          = ownerIndex ((List.range 2).map (nthRunLog cfgPair rng0)) i := by
  rintro ⟨f, hf⟩
  have h0 := hf 0 (by decide)
  have h1 := hf 1 (by decide)
  have heq : (run_simulation cfgPair 2 rng0).2.1.get ⟨0, by decide⟩
      = (run_simulation cfgPair 2 rng0).2.1.get ⟨1, by decide⟩ := by decide
  have o0 : ownerIndex ((List.range 2).map (nthRunLog cfgPair rng0)) 0 = 0 := by
    decide
  have o1 : ownerIndex ((List.range 2).map (nthRunLog cfgPair rng0)) 1 = 1 := by
    decide
  rw [heq, o0] at h0
  rw [o1] at h1
  rw [h0] at h1
  exact absurd h1 (by decide)

/-- C4: for every risk definition the simulator consumes one uniform draw
and the risk fires exactly when that draw is strictly below the risk's
probability; when it fires, the logged delay is the integer sampled by
`randint(impact_min, impact_max + 1)` from the next draw, it satisfies
`impact_min ≤ delay ≤ impact_max` (for a valid generator and a risk with
`impact_min ≤ impact_max`), and a risk with `impact_min = impact_max = 0`
that fires is still logged, with delay `0`. -/
theorem claim_C4_firing_and_delay_bounds (stage_num : Nat) (risk : RiskEvent)
    (rest : List RiskEvent) (sd td : Nat) (log : List FiredRiskEvent)
    (rng : Rng) (hv : RngValid rng)
    (himp : risk.impact_min ≤ risk.impact_max) :
    (¬ rng.head < risk.probability →
      simulate_risks stage_num (risk :: rest) sd td log rng
        = simulate_risks stage_num rest sd td log rng.tail) ∧
    (rng.head < risk.probability →
      risk.impact_min
          ≤ randint risk.impact_min (risk.impact_max + 1) rng.tail.head ∧
      randint risk.impact_min (risk.impact_max + 1) rng.tail.head
          ≤ risk.impact_max ∧
      (risk.impact_min = 0 → risk.impact_max = 0 →
        randint risk.impact_min (risk.impact_max + 1) rng.tail.head = 0) ∧
      simulate_risks stage_num (risk :: rest) sd td log rng
        = simulate_risks stage_num rest
            (sd + randint risk.impact_min (risk.impact_max + 1) rng.tail.head)
            (td + randint risk.impact_min (risk.impact_max + 1) rng.tail.head)
            (log ++ [⟨stage_num, risk.type, risk.severity,
              randint risk.impact_min (risk.impact_max + 1) rng.tail.head,
              risk.mitigation⟩])
            rng.tail.tail) := by
  constructor
  · intro hnf
    rw [simulate_risks, if_neg hnf]
  · intro hfire
    have h1 : rng.tail.head < 1 := hv.tail.head_lt_one
    have hge := randint_le risk.impact_min (risk.impact_max + 1) rng.tail.head
    have hle := le_randint h1 himp
    refine ⟨hge, hle, ?_, ?_⟩
    · intro hm hM
      omega
    · rw [simulate_risks, if_pos hfire]

/-- Witness for C4 at a risk that fires (draw `0 <` probability `1`). -/
theorem claim_C4_firing_and_delay_bounds_witness :
    RngValid rng0 ∧ riskSure2.impact_min ≤ riskSure2.impact_max ∧
    ((¬ rng0.head < riskSure2.probability →
       simulate_risks 1 [riskSure2] 6 0 [] rng0
         = simulate_risks 1 [] 6 0 [] rng0.tail) ∧
     (rng0.head < riskSure2.probability →
       riskSure2.impact_min
           ≤ randint riskSure2.impact_min (riskSure2.impact_max + 1)
               rng0.tail.head ∧
       randint riskSure2.impact_min (riskSure2.impact_max + 1) rng0.tail.head
           ≤ riskSure2.impact_max ∧
       (riskSure2.impact_min = 0 → riskSure2.impact_max = 0 →
         randint riskSure2.impact_min (riskSure2.impact_max + 1)
             rng0.tail.head = 0) ∧
       simulate_risks 1 [riskSure2] 6 0 [] rng0
         = simulate_risks 1 []
             (6 + randint riskSure2.impact_min (riskSure2.impact_max + 1)
               rng0.tail.head)
             (0 + randint riskSure2.impact_min (riskSure2.impact_max + 1)
               rng0.tail.head)
             ([] ++ [⟨1, riskSure2.type, riskSure2.severity,
               randint riskSure2.impact_min (riskSure2.impact_max + 1)
                 rng0.tail.head,
               riskSure2.mitigation⟩])
             rng0.tail.tail)) :=
  ⟨rng0_valid, by decide,
    claim_C4_firing_and_delay_bounds 1 riskSure2 [] 6 0 [] rng0 rng0_valid
      (by decide)⟩

/-- C5 counterexample: the simulator iterates the configuration mapping in
its supplied order, not in ascending stage-id order: on a concrete
configuration supplied in descending id order, the run log differs from the
log of the spec's ascending-order run — the first fired event comes from
stage 2, not stage 1. -/
theorem claim_C5_counterexample :
    (simulate_project cfgUnsorted rng0).2.2.1
      ≠ (simulate_project_ascending cfgUnsorted rng0).2.2.1 := by
  decide

/-- C5 (amended): the simulator processes stages in the order in which the
configuration mapping supplies them (Python dict insertion order); whenever
that supplied order is already ascending in stage id — as it is for every
configuration the app builds, since `create_stage_controls` iterates
`DEFAULT_STAGES` in ascending key order — the run coincides with the spec's
ascending-id-order run. -/
theorem claim_C5_stage_order (stages : ProjectStages) (rng : Rng)
    (hsorted : List.Chain' (fun p q : Nat × Stage => p.1 ≤ q.1) stages) :
    simulate_project stages rng = simulate_project_ascending stages rng := by
  rw [simulate_project_ascending, sortStages_of_sorted stages hsorted]

/-- Witness for C5 at a concrete ascending two-stage configuration. -/
theorem claim_C5_stage_order_witness :
    List.Chain' (fun p q : Nat × Stage => p.1 ≤ q.1) cfgSorted ∧
    simulate_project cfgSorted rng0
      = simulate_project_ascending cfgSorted rng0 :=
  ⟨by simp [cfgSorted, List.chain'_cons],
   claim_C5_stage_order cfgSorted rng0 (by simp [cfgSorted, List.chain'_cons])⟩

/-- C6: configuration construction (spec-modelled `validate_and_build`,
absent from the source, which only constrains values through UI widgets)
rejects a raw input containing a risk with `impact_min > impact_max` before
any simulation trial: it returns a `ValidationError` instead of a
configuration, so such input never reaches the Single-Run Simulator; and on
an otherwise-valid risk the error names the offending field. -/
theorem claim_C6_validation_rejects (raw : List RawStage)
    (hbad : ∃ s ∈ raw, ∃ r ∈ s.risks, r.impact_max < r.impact_min) :
    (∃ e, validate_and_build raw = Except.error e) ∧
    ∀ r : RawRisk, 0 ≤ r.probability → r.probability ≤ 1 →
      0 ≤ r.impact_min → r.impact_max < r.impact_min →
      validateRisk r = some ⟨"impact_max"⟩ := by
  constructor
  · unfold validate_and_build
    by_cases hdup : ¬ (raw.map (fun s => s.id)).Nodup
    · rw [if_pos hdup]
      exact ⟨⟨"id"⟩, rfl⟩
    · rw [if_neg hdup]
      obtain ⟨e, he⟩ := validateStages_some hbad
      rw [he]
      exact ⟨e, rfl⟩
  · intro r hp0 hp1 hm0 hmm
    unfold validateRisk
    rw [if_neg (not_not_intro ⟨hp0, hp1⟩), if_neg (not_not_intro hm0),
      if_pos (by omega)]

/-- Witness for C6 at the spec's own example `impact_min=3, impact_max=1`. -/
theorem claim_C6_validation_rejects_witness :
    (∃ s ∈ rawBad, ∃ r ∈ s.risks, r.impact_max < r.impact_min) ∧
    ((∃ e, validate_and_build rawBad = Except.error e) ∧
     ∀ r : RawRisk, 0 ≤ r.probability → r.probability ≤ 1 →
       0 ≤ r.impact_min → r.impact_max < r.impact_min →
       validateRisk r = some ⟨"impact_max"⟩) :=
  ⟨by decide, claim_C6_validation_rejects rawBad (by decide)⟩

/-- C7 counterexample: at `trial_count = 0 < 1` the Batch Runner does not
raise anything — the source defines no `InvalidTrialCount` and
`range(0)` is empty — it returns normally, producing the two (empty) output
collections, contrary to the claim that an error is surfaced before any
trial and no output collection is produced. -/
theorem claim_C7_counterexample :
    run_simulation cfgPair 0 rng0 = ([], [], rng0) := rfl

/-- C7 (amended): for every configuration and `trial_count < 1` the Batch
Runner executes no trial (no simulator invocation occurs) and returns empty
`run_summaries` and `risk_register`; it raises no error. -/
theorem claim_C7_trial_count (stages : ProjectStages) (n : Nat) (rng : Rng)
    (hn : n < 1) : run_simulation stages n rng = ([], [], rng) := by
  have h0 : n = 0 := by omega
  subst h0
  rfl

/-- Witness for C7 (amended) at `trial_count = 0`. -/
theorem claim_C7_trial_count_witness :
    0 < 1 ∧ run_simulation cfgPair 0 rng0 = ([], [], rng0) :=
  ⟨by decide, claim_C7_trial_count cfgPair 0 rng0 (by decide)⟩

/-- C8: the batch is deterministic in its inputs and randomness — two
invocations of the Batch Runner with the same configuration, the same
trial count and the same random stream produce identical summaries and an
identical risk register. -/
theorem claim_C8_determinism (stages : ProjectStages) (n : Nat)
    (r1 r2 : Rng) (h : ∀ k, r1.stream k = r2.stream k) :
    run_simulation stages n r1 = run_simulation stages n r2 := by
  have hr : r1 = r2 := by
    cases r1 with
    | mk s1 =>
      cases r2 with
      | mk s2 =>
        congr 1
        funext k
        exact h k
  rw [hr]

/-- Witness for C8: two syntactically different but pointwise-equal
streams. -/
theorem claim_C8_determinism_witness :
    (∀ k, rng0.stream k = rng0b.stream k) ∧
    run_simulation cfgPair 1 rng0 = run_simulation cfgPair 1 rng0b :=
  ⟨fun k => by simp [rng0, rng0b],
   claim_C8_determinism cfgPair 1 rng0 rng0b fun k => by simp [rng0, rng0b]⟩

/-- C9: degenerate configurations are independent of the random stream: if
every risk has probability `0` the register is empty and every run's
`total_delay` is `0`; if every risk has probability `1` and
`impact_min = impact_max = k`, every run's `total_delay` is `k` times the
number of risk definitions. -/
theorem claim_C9_degenerate (stages : ProjectStages) (n : Nat) (rng : Rng)
    (hv : RngValid rng) :
    ((∀ p ∈ stages, ∀ r ∈ p.2.risks, r.probability = 0) →
      (run_simulation stages n rng).2.1 = []
        ∧ ∀ s ∈ (run_simulation stages n rng).1, s.delay = 0) ∧
    (∀ k : Nat, (∀ p ∈ stages, ∀ r ∈ p.2.risks,
        r.probability = 1 ∧ r.impact_min = k ∧ r.impact_max = k) →
      ∀ s ∈ (run_simulation stages n rng).1,
        s.delay = k * numRisks stages) :=
  ⟨fun hz => run_simulation_zero_case stages hz n rng hv,
   fun k hone => run_simulation_one_case stages k hone n rng hv⟩

/-- Witness for C9 on a concrete configuration (whose single risk has
probability `1` and point impact `2`, so the second branch applies with
`k = 2`). -/
theorem claim_C9_degenerate_witness :
    RngValid rng0 ∧
    (((∀ p ∈ cfgPair, ∀ r ∈ p.2.risks, r.probability = 0) →
       (run_simulation cfgPair 2 rng0).2.1 = []
         ∧ ∀ s ∈ (run_simulation cfgPair 2 rng0).1, s.delay = 0) ∧
     (∀ k : Nat, (∀ p ∈ cfgPair, ∀ r ∈ p.2.risks,
         r.probability = 1 ∧ r.impact_min = k ∧ r.impact_max = k) →
       ∀ s ∈ (run_simulation cfgPair 2 rng0).1,
         s.delay = k * numRisks cfgPair)) :=
  ⟨rng0_valid, claim_C9_degenerate cfgPair 2 rng0 rng0_valid⟩

/-- C10: in every run each risk definition is evaluated once and fires at
most once, so the run's fired-event list is at most as long as the total
number of risk definitions, and the batch register is at most
`trial_count ×` that number. -/
theorem claim_C10_register_size (stages : ProjectStages) (n : Nat)
    (rng : Rng) :
    (simulate_project stages rng).2.2.1.length ≤ numRisks stages ∧
    (run_simulation stages n rng).2.1.length ≤ n * numRisks stages :=
  ⟨simulate_project_log_le stages rng, run_simulation_register_le stages n rng⟩
